import Mathlib

/-!
Verification of the session-snapshot storage subsystem of
`claude-code-statusline-pro` (Rust sources under `src/storage/`).

The Rust code is shallowly embedded:

* `serde_json::Value` becomes the inductive `Json`; JSON numbers are
  modelled by `JNum`, distinguishing values stored as machine integers
  (`intVal`, covering serde's `u64`/`i64` representations) from values
  stored as floating point (`floatVal`).  `f64` is modelled by `ℚ`: the
  cost fields carry small dollar amounts and only ordering and addition
  of non-negative values are at stake.
* `u64` counters (durations, line counts, tokens, byte offsets) are
  modelled by `ℕ`.  These counters stay far below `2^64` (debug builds
  of the crate would panic on overflow rather than wrap), so overflow is
  not modelled.
* Filesystem reads are modelled by explicit data (`TranscriptFS`,
  `SnapFile`) with Boolean error-injection flags at exactly the fallible
  call sites of the source (`fs::metadata`, `File::open`, `seek`,
  `read_line`); fallible functions return `Except`/pairs with an error
  flag, and the snapshot value threaded through mirrors the `&mut`
  state at each return site of the Rust function.
-/

/-! ## JSON values (shallow embedding of `serde_json::Value`) -/

/-- A JSON number as stored by serde: an exact machine integer or a float
(floats modelled by `ℚ`). -/
inductive JNum where
  | intVal (n : Int)
  | floatVal (q : ℚ)
deriving DecidableEq

/-- Shallow embedding of `serde_json::Value`.  Object fields are an
association list in insertion order (the source's map is only read by
key, removed by key, or rewritten value-wise, so ordering is
observationally irrelevant to the embedded operations). -/
inductive Json where
  | null
  | bool (b : Bool)
  | num (n : JNum)
  | str (s : String)
  | arr (items : List Json)
  | obj (fields : List (String × Json))

/-- First-match association-list lookup (`Map::get`). -/
def lookupField : List (String × Json) → String → Option Json
  | [], _ => none
  | (k', v) :: rest, k => if k' = k then some v else lookupField rest k

/-- `Value::get(key)` on objects. -/
def Json.get (v : Json) (k : String) : Option Json :=
  match v with
  | .obj l => lookupField l k
  | _ => none

/-- `Value::as_str`. -/
def Json.asStr : Json → Option String
  | .str s => some s
  | _ => none

/-- `Value::as_bool`. -/
def Json.asBool : Json → Option Bool
  | .bool b => some b
  | _ => none

/-- `Value::as_u64`: defined only on numbers stored as non-negative
machine integers in `u64` range. -/
def Json.asU64 : Json → Option Nat
  | .num (.intVal n) => if 0 ≤ n ∧ n < 2 ^ 64 then some n.toNat else none
  | _ => none

/-- `Value::as_f64` (floats modelled by `ℚ`; integer-stored numbers
convert exactly, abstracting the `u64 → f64` rounding that cannot occur
for realistic cost payloads). -/
def Json.asF64 : Json → Option ℚ
  | .num (.intVal n) => some (n : ℚ)
  | .num (.floatVal q) => some q
  | _ => none

/-- `Option::or_else` specialised to constant alternatives, as used
throughout `manager.rs` for the snake-case/camel-case field fallbacks. -/
def orO {α : Type} (a b : Option α) : Option α :=
  match a with
  | some x => some x
  | none => b

/-! ## Storage types (`src/storage/types.rs`) -/

/-- `CostMetrics` (types.rs:166-177): the five scalar cost fields.
`total_cost_usd` is `f64` in the source, modelled by `ℚ`; the other four
are `u64`, modelled by `ℕ`. -/
structure CostMetrics where
  total_cost_usd : ℚ
  total_duration_ms : ℕ
  total_api_duration_ms : ℕ
  total_lines_added : ℕ
  total_lines_removed : ℕ
deriving DecidableEq

/-- `CostMetrics::default()`: all fields zero. -/
def CostMetrics.zero : CostMetrics := ⟨0, 0, 0, 0, 0⟩

/-- Field-wise sum of two `CostMetrics` (the shape of the `total`
recomputation in `CostHistory::apply`). -/
def CostMetrics.add (a b : CostMetrics) : CostMetrics :=
  ⟨a.total_cost_usd + b.total_cost_usd,
   a.total_duration_ms + b.total_duration_ms,
   a.total_api_duration_ms + b.total_api_duration_ms,
   a.total_lines_added + b.total_lines_added,
   a.total_lines_removed + b.total_lines_removed⟩

/-- Field-wise `≤` on `CostMetrics`. -/
def CostMetrics.le (a b : CostMetrics) : Prop :=
  a.total_cost_usd ≤ b.total_cost_usd ∧
  a.total_duration_ms ≤ b.total_duration_ms ∧
  a.total_api_duration_ms ≤ b.total_api_duration_ms ∧
  a.total_lines_added ≤ b.total_lines_added ∧
  a.total_lines_removed ≤ b.total_lines_removed

instance (a b : CostMetrics) : Decidable (a.le b) := by
  unfold CostMetrics.le; infer_instance

/-- `CostHistory` (types.rs:113-121). -/
structure CostHistory where
  current : CostMetrics
  accumulated : CostMetrics
  total : CostMetrics
deriving DecidableEq

/-- `CostHistory::default()`. -/
def CostHistory.init : CostHistory := ⟨.zero, .zero, .zero⟩

/-- `CostHistory::apply` (types.rs:124-161).  Each of the five `if`
statements in the source adds the old `current` value of one field into
the same field of `accumulated` when that field's reset condition holds;
the conditions read only the (unmodified) `current` and the incoming
metrics, so the five folds are independent and are written here as five
per-field conditionals.  Afterwards `current` is overwritten wholesale
and `total` is recomputed as the field-wise sum. -/
def CostHistory.apply (h : CostHistory) (m : CostMetrics) : CostHistory :=
  let acc : CostMetrics :=
    { total_cost_usd :=
        if 0 < h.current.total_cost_usd ∧ m.total_cost_usd < h.current.total_cost_usd
        then h.accumulated.total_cost_usd + h.current.total_cost_usd
        else h.accumulated.total_cost_usd
      total_duration_ms :=
        if 0 < h.current.total_duration_ms ∧ m.total_duration_ms < h.current.total_duration_ms
        then h.accumulated.total_duration_ms + h.current.total_duration_ms
        else h.accumulated.total_duration_ms
      total_api_duration_ms :=
        if 0 < h.current.total_api_duration_ms ∧
            m.total_api_duration_ms < h.current.total_api_duration_ms
        then h.accumulated.total_api_duration_ms + h.current.total_api_duration_ms
        else h.accumulated.total_api_duration_ms
      total_lines_added :=
        if 0 < h.current.total_lines_added ∧ m.total_lines_added < h.current.total_lines_added
        then h.accumulated.total_lines_added + h.current.total_lines_added
        else h.accumulated.total_lines_added
      total_lines_removed :=
        if 0 < h.current.total_lines_removed ∧
            m.total_lines_removed < h.current.total_lines_removed
        then h.accumulated.total_lines_removed + h.current.total_lines_removed
        else h.accumulated.total_lines_removed }
  { current := m, accumulated := acc, total := m.add acc }

/-- `CostMetrics::from_cost_value` (types.rs:180-204): extract the five
fields from a JSON cost block, defaulting each to zero. -/
def CostMetrics.from_cost_value (v : Json) : CostMetrics :=
  { total_cost_usd := (((v.get "total_cost_usd").bind Json.asF64)).getD 0
    total_duration_ms := (((v.get "total_duration_ms").bind Json.asU64)).getD 0
    total_api_duration_ms := (((v.get "total_api_duration_ms").bind Json.asU64)).getD 0
    total_lines_added := (((v.get "total_lines_added").bind Json.asU64)).getD 0
    total_lines_removed := (((v.get "total_lines_removed").bind Json.asU64)).getD 0 }

/-- `TokenHistory` (types.rs:207-223). -/
structure TokenHistory where
  input : ℕ
  output : ℕ
  cache_creation_input : ℕ
  cache_read_input : ℕ
  context_used : ℕ
  last_message_uuid : Option String
  last_timestamp : Option String
deriving DecidableEq

/-- `TokenHistory::default()`. -/
def TokenHistory.init : TokenHistory := ⟨0, 0, 0, 0, 0, none, none⟩

/-- `ModelUsageEntry` (types.rs:226-233). -/
structure ModelUsageEntry where
  id : String
  display_name : Option String
  last_used_at : Option String
deriving DecidableEq

/-- `TranscriptState` (types.rs:236-248). -/
structure TranscriptState where
  transcript_path : Option String
  processed_offset : ℕ
  processed_messages : ℕ
  last_message_uuid : Option String
  last_timestamp : Option String
deriving DecidableEq

/-- `TranscriptState::default()`. -/
def TranscriptState.init : TranscriptState := ⟨none, 0, 0, none, none⟩

/-- `SessionHistory` (types.rs:102-110). -/
structure SessionHistory where
  cost : CostHistory
  tokens : Option TokenHistory
  model_usage : List ModelUsageEntry
deriving DecidableEq

/-- `SessionHistory::default()`. -/
def SessionHistory.init : SessionHistory := ⟨.init, none, []⟩

/-- `SessionMeta` (types.rs:79-88).  `DateTime<Utc>` timestamps are
modelled as opaque `ℕ` clock readings supplied by the caller (the `now`
parameter standing in for `Utc::now()`). -/
structure SessionMeta where
  session_id : String
  project_path : Option String
  created_at : Option ℕ
  last_update_time : Option ℕ
deriving DecidableEq

/-- `SessionSnapshot` (types.rs:51-60). -/
structure SessionSnapshot where
  meta : SessionMeta
  latest : Json
  history : SessionHistory
  transcript_state : TranscriptState

/-- `SessionSnapshot::new` (types.rs:63-75), with `now` standing in for
`Utc::now()`. -/
def SessionSnapshot.new (session_id : String) (now : ℕ) : SessionSnapshot :=
  { meta := { session_id := session_id, project_path := none,
              created_at := some now, last_update_time := some now }
    latest := .null
    history := .init
    transcript_state := .init }

/-! ## Transcript reading (`src/storage/manager.rs` lines 240-413) -/

/-- `StorageManager::is_compact_summary` (manager.rs:350-355). -/
def is_compact_summary (v : Json) : Bool :=
  (((v.get "isCompactSummary").bind Json.asBool)).getD false

/-- `StorageManager::token_entry_from_summary` (manager.rs:357-365):
an all-default `TokenHistory` retaining only the summary's timestamp. -/
def token_entry_from_summary (v : Json) : TokenHistory :=
  { TokenHistory.init with
      last_timestamp := (v.get "timestamp").bind Json.asStr }

/-- `StorageManager::token_entry_from_message` (manager.rs:367-413). -/
def token_entry_from_message (v : Json) : Option TokenHistory :=
  if ((v.get "type").bind Json.asStr) = some "assistant" then
    match v.get "message" with
    | none => none
    | some message =>
      match message.get "usage" with
      | none => none
      | some usage =>
        let input := (((usage.get "input_tokens").bind Json.asU64)).getD 0
        let output := (((usage.get "output_tokens").bind Json.asU64)).getD 0
        let cache_creation :=
          (((usage.get "cache_creation_input_tokens").bind Json.asU64)).getD 0
        let cache_read :=
          (((usage.get "cache_read_input_tokens").bind Json.asU64)).getD 0
        some { input := input, output := output
               cache_creation_input := cache_creation
               cache_read_input := cache_read
               context_used := input + output + cache_creation + cache_read
               last_message_uuid := (v.get "uuid").bind Json.asStr
               last_timestamp := (v.get "timestamp").bind Json.asStr }
  else none

/-- Token-snapshot dispatch for one parsed transcript line: the body of
the per-line conditional in `process_transcript_stream`
(manager.rs:337-344) — a compaction summary resets the working snapshot,
an assistant usage entry replaces it, anything else leaves it. -/
def stepTokens (prev : Option TokenHistory) (v : Json) : Option TokenHistory :=
  if is_compact_summary v then some (token_entry_from_summary v)
  else
    match token_entry_from_message v with
    | some entry => some entry
    | none => prev

/-- What one transcript line looks like after `read_line` + `trim` +
`serde_json::from_str`: it trims to empty, or is non-empty but fails to
parse, or parses to a JSON value.  (A trimmed-empty line can never parse,
so the three cases are exclusive, matching the source's control flow.) -/
inductive LineContent where
  | blank
  | unparsable
  | parsed (v : Json)

/-- One line of the transcript file: the number of bytes `read_line`
consumes for it (content plus any trailing newline) and its parse
classification. -/
structure TLine where
  bytes : ℕ
  content : LineContent

/-- The three mutable locals of `process_transcript_stream`
(manager.rs:306-313): running byte offset, processed-message counter and
working token snapshot. -/
structure StreamState where
  offset : ℕ
  messages : ℕ
  tokens : Option TokenHistory

/-- One iteration of the `process_transcript_stream` loop
(manager.rs:314-345): the offset advances by the bytes read for every
line; a line that trims to empty is skipped before the message counter;
every other line increments the counter; parse failures are skipped;
parsed values go through the token dispatch. -/
def stepLine (st : StreamState) (l : TLine) : StreamState :=
  let st := { st with offset := st.offset + l.bytes }
  match l.content with
  | .blank => st
  | .unparsable => { st with messages := st.messages + 1 }
  | .parsed v =>
    { st with messages := st.messages + 1, tokens := stepTokens st.tokens v }

/-- The whole read loop of `process_transcript_stream` on the lines
remaining after the seek, error-free case. -/
def processStream (st : StreamState) (ls : List TLine) : StreamState :=
  ls.foldl stepLine st

/-- Number of lines that pass the blank-line filter and hence increment
`processed_messages` (unparsable non-blank lines included). -/
def countProcessed (ls : List TLine) : ℕ :=
  (ls.filter fun l =>
    match l.content with
    | .blank => false
    | _ => true).length

/-- Total byte length of a list of lines (`metadata.len()` of the file
they constitute). -/
def fileLen (ls : List TLine) : ℕ :=
  (ls.map TLine.bytes).sum

/-- The lines still unread after seeking to byte `off`.  Offsets
produced by the source always sit on line boundaries; should a seek land
mid-line (possible only if the file was rewritten in place), `read_line`
returns the tail of that line, modelled as an unparsable line of the
remaining bytes. -/
def dropBytes : List TLine → ℕ → List TLine
  | [], _ => []
  | l :: ls, off =>
    if off = 0 then l :: ls
    else if off < l.bytes then ⟨l.bytes - off, .unparsable⟩ :: ls
    else dropBytes ls (off - l.bytes)

/-- `process_transcript_stream` with `read_line` error injection:
`errAfter = some n` makes the `n`-th `read_line` call fail (possible
whenever `n` does not exceed the number of reads the loop would issue);
the loop's locals are then discarded by the `?` propagation. -/
def processStreamF (st : StreamState) (ls : List TLine) (errAfter : Option ℕ) :
    Except Unit StreamState :=
  match errAfter with
  | some n => if n ≤ ls.length then .error () else .ok (processStream st ls)
  | none => .ok (processStream st ls)

/-- The filesystem as seen by one `read_tokens_from_transcript` call:
whether the transcript path exists, error injection for the `metadata`,
`open` and `seek` calls, the file's lines, and `read_line` error
injection. -/
structure TranscriptFS where
  fileExists : Bool
  metadataErr : Bool
  openErr : Bool
  seekErr : Bool
  lines : List TLine
  readErrAfter : Option ℕ

/-- No I/O error is injected anywhere in the call. -/
def noFsErr (fs : TranscriptFS) : Prop :=
  fs.metadataErr = false ∧ fs.openErr = false ∧ fs.seekErr = false ∧
  fs.readErrAfter = none

/-- `StorageManager::read_tokens_from_transcript` (manager.rs:240-304).
Returns the snapshot as left by the `&mut` reference together with an
error flag (`true` = the Rust function returned `Err`).  The snapshot
component at each error return reflects that the source mutates the
snapshot only in the missing-file early return and after a fully
successful read. -/
def read_tokens_from_transcriptF (snap : SessionSnapshot) (path : String)
    (fs : TranscriptFS) : SessionSnapshot × Bool :=
  if !fs.fileExists then
    ({ snap with transcript_state :=
        { snap.transcript_state with transcript_path := some path } }, false)
  else if fs.metadataErr then (snap, true)
  else
    let file_len := fileLen fs.lines
    let needs_reset : Bool :=
      decide (snap.transcript_state.transcript_path ≠ some path) ||
      decide (file_len < snap.transcript_state.processed_offset)
    let offset0 := if needs_reset then 0 else snap.transcript_state.processed_offset
    let messages0 := if needs_reset then 0 else snap.transcript_state.processed_messages
    if fs.openErr then (snap, true)
    else if fs.seekErr then (snap, true)
    else
      match processStreamF ⟨offset0, messages0, snap.history.tokens⟩
          (dropBytes fs.lines offset0) fs.readErrAfter with
      | .error _ => (snap, true)
      | .ok st =>
        let ts : TranscriptState :=
          { snap.transcript_state with
              transcript_path := some path
              processed_offset := st.offset
              processed_messages := st.messages }
        match st.tokens with
        | some t =>
          ({ snap with
              transcript_state :=
                { ts with last_message_uuid := t.last_message_uuid
                          last_timestamp := t.last_timestamp }
              history := { snap.history with tokens := some t } }, false)
        | none => ({ snap with transcript_state := ts }, false)

/-! ## Project-identity hashing (`src/storage/project_resolver.rs`) -/

/-- The two UNC long-path markers of `UNC_PREFIXES`
(project_resolver.rs:15): `\\\\?\` and `\\?\` as character lists. -/
def uncMarks : List (List Char) :=
  [['\\', '\\', '\\', '\\', '?', '\\'], ['\\', '\\', '?', '\\']]

/-- The UNC-stripping loop (project_resolver.rs:122-133): strip the
first matching marker, then trim leading backslashes. -/
def uncStrip (l : List Char) : List Char :=
  match uncMarks.find? (fun p => p.isPrefixOf l) with
  | some p => (l.drop p.length).dropWhile (fun c => c = '\\')
  | none => l

/-- Match of `^([A-Za-z]):\\` or `^([A-Za-z]):/`
(project_resolver.rs:240, 248) against the start of the string: the
drive letter, the separator that followed `:` and the remainder. -/
def driveSplit : List Char → Option (Char × Char × List Char)
  | c :: ':' :: s :: rest =>
    if c.isAlpha ∧ (s = '\\' ∨ s = '/') then some (c, s, rest) else none
  | _ => none

/-- `trim_end_matches('-')` / the trailing `while ends_with('-') pop`
loop (project_resolver.rs:163-165, 178). -/
def trimTrailingDashes (l : List Char) : List Char :=
  (l.reverse.dropWhile (fun c => c = '-')).reverse

/-- `Regex("-+").replace_all(_, "-")` (project_resolver.rs:253-283):
collapse every run of dashes to a single dash. -/
def collapseDashes : List Char → List Char
  | [] => []
  | [c] => [c]
  | a :: b :: rest =>
    if a = '-' ∧ b = '-' then collapseDashes (b :: rest)
    else a :: collapseDashes (b :: rest)

/-- `while starts_with('-') remove(0)` (project_resolver.rs:170-172). -/
def dropLeadingDashes (l : List Char) : List Char :=
  l.dropWhile (fun c => c = '-')

/-- The drive-letter branch of `hash_project_path`
(project_resolver.rs:137-157, 167-178): the matched `X:sep` becomes
`X--`, every remaining occurrence of the matched separator character
becomes a dash, trailing dashes are trimmed; if at least the `X--`
survives, the part after it gets its dashes collapsed and its leading
dashes stripped, and the combination is trimmed again; otherwise the
whole (short) string just gets its dashes collapsed.  The `split_at(3)`
byte index coincides with the character index because `X--` is ASCII. -/
def driveBranch (d : Char) (sep : Char) (rest : List Char) : List Char :=
  let replaced := d :: '-' :: '-' ::
    rest.map (fun c => if c = sep then '-' else c)
  let trimmed := trimTrailingDashes replaced
  if 3 ≤ trimmed.length then
    let pfx := trimmed.take 3
    let normalizedRest := dropLeadingDashes (collapseDashes (trimmed.drop 3))
    let combined := if normalizedRest = [] then pfx else pfx ++ normalizedRest
    trimTrailingDashes combined
  else collapseDashes trimmed

/-- `hash_project_path` after canonicalization
(project_resolver.rs:122-182), on the character list of the string. -/
def hashChars (l : List Char) : List Char :=
  let l := uncStrip l
  match driveSplit l with
  | some (d, sep, rest) => driveBranch d sep rest
  | none =>
    collapseDashes (trimTrailingDashes
      (l.map (fun c => if c = '\\' ∨ c = '/' ∨ c = ':' then '-' else c)))

/-- `ProjectResolver::hash_project_path` (project_resolver.rs:112-182).
`canon` models `Path::canonicalize` for the current filesystem state
(`none` = canonicalization fails and the raw path string is used, e.g.
for paths that do not exist).  The empty-path assertion is modelled by
returning `none`. -/
def hash_project_path (canon : String → Option String) (p : String) :
    Option String :=
  if p = "" then none
  else some (String.mk (hashChars ((canon p).getD p).data))

/-- Canonicalization that always fails (path not present on the
filesystem), the situation exercised by the repository's own tests. -/
def canonMiss : String → Option String := fun _ => none

/-- Whether a character list contains two consecutive dashes. -/
def hasDoubleDash : List Char → Bool
  | [] => false
  | [_] => false
  | a :: b :: rest => (a = '-' && b = '-') || hasDoubleDash (b :: rest)

/-- Whether a character list contains three consecutive dashes. -/
def hasTripleDash : List Char → Bool
  | [] => false
  | [_] => false
  | [_, _] => false
  | a :: b :: c :: rest => (a = '-' && b = '-' && c = '-') || hasTripleDash (b :: c :: rest)

/-- The result of a fully successful `read_tokens_from_transcript` call
on an existing file (the value `read_tokens_from_transcriptF` produces
when no I/O error is injected), as a standalone function of the prior
snapshot and the file's lines. -/
def readTokensSuccess (snap : SessionSnapshot) (path : String)
    (lines : List TLine) : SessionSnapshot :=
  let needs_reset : Bool :=
    decide (snap.transcript_state.transcript_path ≠ some path) ||
    decide (fileLen lines < snap.transcript_state.processed_offset)
  let offset0 := if needs_reset then 0 else snap.transcript_state.processed_offset
  let messages0 := if needs_reset then 0 else snap.transcript_state.processed_messages
  let st := processStream ⟨offset0, messages0, snap.history.tokens⟩ (dropBytes lines offset0)
  let ts : TranscriptState :=
    { snap.transcript_state with
        transcript_path := some path
        processed_offset := st.offset
        processed_messages := st.messages }
  match st.tokens with
  | some t =>
    { snap with
        transcript_state :=
          { ts with last_message_uuid := t.last_message_uuid
                    last_timestamp := t.last_timestamp }
        history := { snap.history with tokens := some t } }
  | none => { snap with transcript_state := ts }

/-! ## Snapshot load and update (`src/storage/manager.rs`) -/

/-- The on-disk state of one session's snapshot file as seen by
`load_snapshot`: missing, unreadable (`fs::read_to_string` fails),
readable but failing `serde_json::from_str`, or readable and parsing to
a snapshot. -/
inductive SnapFile where
  | absent
  | unreadable
  | malformed
  | wellFormed (s : SessionSnapshot)

/-- `StorageManager::load_snapshot` (manager.rs:121-141): a missing file
is `Ok(None)`; a read failure propagates; a parse failure is logged and
treated as `Ok(None)`; otherwise the snapshot is returned. -/
def load_snapshot (f : SnapFile) : Except Unit (Option SessionSnapshot) :=
  match f with
  | .absent => .ok none
  | .unreadable => .error ()
  | .malformed => .ok none
  | .wellFormed s => .ok (some s)

/-- `StorageManager::get_snapshot` (manager.rs:507-509): delegates to
`load_snapshot`. -/
def get_snapshot (f : SnapFile) : Except Unit (Option SessionSnapshot) :=
  load_snapshot f

/-- The emptiness test used by `sanitize_latest_value`'s `retain` and by
`sanitize_object`'s removal condition (manager.rs:571-576, 597-600,
614-617): drop nulls, empty objects and empty arrays. -/
def pruneDrop (v : Json) : Bool :=
  match v with
  | .null => true
  | .obj [] => true
  | .arr [] => true
  | _ => false

/-- The five token keys stripped from a `cost` object
(manager.rs:584-590). -/
def tokenKeys : List String :=
  ["input_tokens", "output_tokens", "total_tokens",
   "cache_read_tokens", "cache_write_tokens"]

/-- Remove the token keys from a cost object's fields
(manager.rs:584-591). -/
def stripTokenKeys (l : List (String × Json)) : List (String × Json) :=
  l.filter (fun p => !(tokenKeys.contains p.1))

/-- `map.remove(k)` on the association list. -/
def removeKey (l : List (String × Json)) (k : String) : List (String × Json) :=
  l.filter (fun p => p.1 ≠ k)

/-- Replace the value stored at the (first occurrence of) key `k`,
modelling mutation through `map.get_mut(k)`. -/
def setKey : List (String × Json) → String → Json → List (String × Json)
  | [], _, _ => []
  | (k', v') :: rest, k, v =>
    if k' = k then (k', v) :: rest else (k', v') :: setKey rest k v

mutual

/-- Nesting depth of a JSON value (atoms are depth 0). -/
def jdepth : Json → ℕ
  | .obj l => 1 + jdepthFields l
  | .arr items => 1 + jdepthList items
  | _ => 0

/-- Maximum depth of a list of values. -/
def jdepthList : List Json → ℕ
  | [] => 0
  | v :: rest => max (jdepth v) (jdepthList rest)

/-- Maximum depth of an object's field values. -/
def jdepthFields : List (String × Json) → ℕ
  | [] => 0
  | (_, v) :: rest => max (jdepth v) (jdepthFields rest)

end

mutual

/-- `sanitize_latest_value` (manager.rs:564-580), fuel-indexed: objects
go through `sanGoFieldsTop`, arrays sanitize their items and retain the
non-prunable ones, scalars pass through.  The fuel only bounds the
recursion for Lean's termination checker; `sanitizeLatest` supplies fuel
equal to the value's depth, which the recursion never exhausts because
sanitization never increases depth (each nested call is on a value of
strictly smaller depth than its caller's argument). -/
def sanGo : ℕ → Json → Json
  | 0, v => v
  | f + 1, v =>
    match v with
    | .obj l => .obj (sanGoFields f (sanGoCost f l))
    | .arr items =>
      .arr ((items.map (fun u => sanGo f u)).filter (fun u => !pruneDrop u))
    | other => other
termination_by f _ => (f, 0, 0)

/-- The per-key loop of `sanitize_object` (manager.rs:610-621): sanitize
every value and drop the entry when the result is prunable. -/
def sanGoFields : ℕ → List (String × Json) → List (String × Json)
  | _, [] => []
  | f, (k, v) :: rest =>
    let v' := sanGo f v
    if pruneDrop v' then sanGoFields f rest
    else (k, v') :: sanGoFields f rest
termination_by f l => (f, 1, l.length)

/-- The `cost` special case of `sanitize_object` (manager.rs:583-608):
if the map holds a `cost` object, strip its token keys, sanitize and
prune its remaining fields, and remove the `cost` entry entirely if
nothing is left. -/
def sanGoCost (f : ℕ) (l : List (String × Json)) : List (String × Json) :=
  match lookupField l "cost" with
  | some (.obj c) =>
    let c' := sanGoFields f (stripTokenKeys c)
    if c'.isEmpty then removeKey l "cost" else setKey l "cost" (.obj c')
  | _ => l
termination_by (f, 2, 0)

end

/-- `sanitize_latest_value` at adequate fuel (see `sanGo`). -/
def sanitizeLatest (v : Json) : Json :=
  sanGo (jdepth v) v

/-- `StorageManager::determine_project_path` (manager.rs:170-199).
`cwd` stands in for `std::env::current_dir()` (already converted to a
string, `none` when unavailable). -/
def determine_project_path (input : Json) (existing : Option String)
    (cwd : Option String) : Option String :=
  let fromWorkspace :=
    (orO (input.get "workspace") (input.get "workspaceInfo")).bind
      (fun ws => (orO (ws.get "project_dir") (ws.get "projectDir")).bind Json.asStr)
  match fromWorkspace with
  | some p => some p
  | none =>
    match (orO (input.get "cwd") (input.get "currentDir")).bind Json.asStr with
    | some c => some c
    | none =>
      match existing with
      | some e => some e
      | none => cwd

/-- `StorageManager::extract_session_id` (manager.rs:415-420). -/
def extract_session_id (input : Json) : Option String :=
  (orO (input.get "session_id") (input.get "sessionId")).bind Json.asStr

/-- `StorageManager::extract_cost_value` (manager.rs:422-426). -/
def extract_cost_value (input : Json) : Option Json :=
  orO (input.get "cost") (input.get "sessionCost")

/-- `StorageManager::extract_model` (manager.rs:428-432). -/
def extract_model (input : Json) : Option Json :=
  orO (input.get "model") (input.get "modelInfo")

/-- `StorageManager::extract_timestamp` (manager.rs:434-439). -/
def extract_timestamp (input : Json) : Option String :=
  orO ((input.get "timestamp").bind Json.asStr)
      ((input.get "last_update_time").bind Json.asStr)

/-- `StorageManager::extract_transcript_path` (manager.rs:441-446). -/
def extract_transcript_path (input : Json) : Option String :=
  (orO (input.get "transcript_path") (input.get "transcriptPath")).bind Json.asStr

/-- The `iter_mut().find()`-or-push of `update_model_usage`
(manager.rs:224-237): update the first entry with the given id in place
(non-`None` display name / timestamp overwrite, `None` ones preserve the
stored value), or append a fresh entry. -/
def touchModelUsage : List ModelUsageEntry → String → Option String →
    Option String → List ModelUsageEntry
  | [], id, dn, ts => [⟨id, dn, ts⟩]
  | e :: rest, id, dn, ts =>
    if e.id = id then
      { e with
          display_name := if dn.isSome then dn else e.display_name
          last_used_at := if ts.isSome then ts else e.last_used_at } :: rest
    else e :: touchModelUsage rest id dn ts

/-- `StorageManager::update_model_usage` (manager.rs:201-238): a no-op
without a model block or model id. -/
def update_model_usage (history : SessionHistory) (model : Option Json)
    (timestamp : Option String) : SessionHistory :=
  match model with
  | none => history
  | some mv =>
    match (orO (mv.get "id") (mv.get "model_id")).bind Json.asStr with
    | none => history
    | some id =>
      let display_name :=
        (orO (mv.get "display_name") (mv.get "displayName")).bind Json.asStr
      { history with
          model_usage := touchModelUsage history.model_usage id display_name timestamp }

/-- The first half of `update_snapshot_from_value` (manager.rs:462-481):
load-or-create, metadata touch-ups, sanitized `latest`, and the cost
fold when a cost block is present.  This is everything that happens
before the transcript token-update step. -/
def updStage1 (loaded : Option SessionSnapshot) (now : ℕ) (cwd : Option String)
    (input : Json) (sid : String) : SessionSnapshot :=
  let snap := loaded.getD (SessionSnapshot.new sid now)
  let snap :=
    { snap with
        meta :=
          { snap.meta with
              session_id := sid
              project_path := determine_project_path input snap.meta.project_path cwd
              last_update_time := some now
              created_at :=
                match snap.meta.created_at with
                | none => some now
                | some t => some t }
        latest := sanitizeLatest input }
  match extract_cost_value input with
  | some cv =>
    { snap with
        history :=
          { snap.history with
              cost := snap.history.cost.apply (CostMetrics.from_cost_value cv) } }
  | none => snap

/-- The model-usage step of `update_snapshot_from_value`
(manager.rs:489-497): the effective timestamp is the payload timestamp,
falling back to the last token timestamp of the (possibly just updated)
history. -/
def modelStep (snap : SessionSnapshot) (input : Json) : SessionSnapshot :=
  let tokenTimestamp := snap.history.tokens.bind TokenHistory.last_timestamp
  let effective := orO (extract_timestamp input) tokenTimestamp
  { snap with history := update_model_usage snap.history (extract_model input) effective }

/-- `StorageManager::update_snapshot_from_value` (manager.rs:454-501).
Parameters model the manager's environment: `enablePersist` is
`config.enable_cost_persistence`, `file` the session file consulted by
`load_snapshot`, `now` the wall clock, `cwd` the process working
directory, `tfs` the transcript filesystem, `saveErr` whether
`save_snapshot`'s serialize/write/rename fails.  A failing transcript
token-update step is logged and swallowed (manager.rs:483-487); the
returned snapshot is the one handed to `save_snapshot`. -/
def update_snapshot_from_value (enablePersist : Bool) (file : SnapFile)
    (now : ℕ) (cwd : Option String) (tfs : TranscriptFS) (saveErr : Bool)
    (input : Json) : Except Unit SessionSnapshot :=
  if !enablePersist then .ok (SessionSnapshot.new "disabled" now)
  else
    match extract_session_id input with
    | none => .error ()
    | some sid =>
      match load_snapshot file with
      | .error _ => .error ()
      | .ok loaded =>
        let snap := updStage1 loaded now cwd input sid
        let snap :=
          match extract_transcript_path input with
          | some tp => (read_tokens_from_transcriptF snap tp tfs).1
          | none => snap
        let snap := modelStep snap input
        if saveErr then .error () else .ok snap

/-! ## Concrete fixtures used by witnesses and counterexamples -/

/-- `ms.foldl CostHistory.apply h`: a sequence of `CostHistory::apply`
calls. -/
def applyList (h : CostHistory) (ms : List CostMetrics) : CostHistory :=
  ms.foldl CostHistory.apply h

/-- An assistant transcript record with the spec's example usage
figures (input 10, output 5, cache creation 100, cache read 20). -/
def vAssistant : Json :=
  .obj [("type", .str "assistant"), ("uuid", .str "u1"), ("timestamp", .str "t1"),
    ("message", .obj [("usage", .obj
      [("input_tokens", .num (.intVal 10)), ("output_tokens", .num (.intVal 5)),
       ("cache_creation_input_tokens", .num (.intVal 100)),
       ("cache_read_input_tokens", .num (.intVal 20))])])]

/-- The token snapshot `token_entry_from_message` extracts from
`vAssistant`. -/
def eAssistant : TokenHistory := ⟨10, 5, 100, 20, 135, some "u1", some "t1"⟩

/-- A compaction-summary transcript record. -/
def vSummary : Json :=
  .obj [("isCompactSummary", .bool true), ("timestamp", .str "ts9")]

/-- A snapshot whose cursor points at transcript `"t"`, offset 0. -/
def snapT : SessionSnapshot :=
  { SessionSnapshot.new "s" 0 with transcript_state := ⟨some "t", 0, 0, none, none⟩ }

/-- A snapshot whose cursor points at transcript `"u"`. -/
def snapU : SessionSnapshot :=
  { SessionSnapshot.new "s" 0 with transcript_state := ⟨some "u", 3, 2, none, none⟩ }

/-- An error-free one-line transcript filesystem. -/
def fsOneLine : TranscriptFS := ⟨true, false, false, false, [⟨1, .blank⟩], none⟩

/-- A transcript filesystem whose `fs::metadata` call fails. -/
def fsMeta : TranscriptFS := ⟨true, true, false, false, [], none⟩

/-- A full inbound payload: session id, cost block, transcript path,
model block, timestamp. -/
def inpFull : Json :=
  .obj [("session_id", .str "sess"),
    ("cost", .obj [("total_cost_usd", .num (.floatVal (3/2))),
                   ("total_duration_ms", .num (.intVal 7))]),
    ("transcript_path", .str "t"),
    ("model", .obj [("id", .str "opus"), ("display_name", .str "Opus")]),
    ("timestamp", .str "T0")]

/-- The cost block inside `inpFull`. -/
def inpCost : Json :=
  .obj [("total_cost_usd", .num (.floatVal (3/2))),
        ("total_duration_ms", .num (.intVal 7))]

/-! ## Helper lemmas -/

lemma stepLine_offset (st : StreamState) (l : TLine) :
    (stepLine st l).offset = st.offset + l.bytes := by
  rcases l with ⟨b, c⟩
  cases c <;> rfl

/-- Whether one line increments `processed_messages`. -/
def lineCount (l : TLine) : ℕ :=
  match l.content with
  | .blank => 0
  | _ => 1

lemma stepLine_messages (st : StreamState) (l : TLine) :
    (stepLine st l).messages = st.messages + lineCount l := by
  rcases l with ⟨b, c⟩
  cases c <;> simp [stepLine, lineCount]

lemma processStream_cons (st : StreamState) (l : TLine) (ls : List TLine) :
    processStream st (l :: ls) = processStream (stepLine st l) ls := rfl

lemma processStream_append (st : StreamState) (l1 l2 : List TLine) :
    processStream st (l1 ++ l2) = processStream (processStream st l1) l2 :=
  List.foldl_append _ _ _ _

lemma countProcessed_cons (l : TLine) (ls : List TLine) :
    countProcessed (l :: ls) = lineCount l + countProcessed ls := by
  rcases l with ⟨b, c⟩
  cases c <;> simp [countProcessed, lineCount] <;> omega

lemma processStream_offset (ls : List TLine) :
    ∀ st : StreamState, (processStream st ls).offset = st.offset + fileLen ls := by
  induction ls with
  | nil => intro st; simp [processStream, fileLen]
  | cons l ls ih =>
    intro st
    rw [processStream_cons, ih, stepLine_offset]
    simp only [fileLen, List.map_cons, List.sum_cons]
    omega

lemma processStream_messages (ls : List TLine) :
    ∀ st : StreamState, (processStream st ls).messages = st.messages + countProcessed ls := by
  induction ls with
  | nil => intro st; simp [processStream, countProcessed]
  | cons l ls ih =>
    intro st
    rw [processStream_cons, ih, stepLine_messages, countProcessed_cons]
    omega

lemma read_tokens_err_unchanged (snap : SessionSnapshot) (path : String)
    (fs : TranscriptFS)
    (h : (read_tokens_from_transcriptF snap path fs).2 = true) :
    (read_tokens_from_transcriptF snap path fs).1 = snap := by
  rcases hE : read_tokens_from_transcriptF snap path fs with ⟨s, b⟩
  rw [hE] at h
  simp only at h
  subst h
  unfold read_tokens_from_transcriptF at hE
  split at hE
  · exact absurd (congrArg Prod.snd hE) (by simp)
  · split at hE
    · simpa using (congrArg Prod.fst hE).symm
    · split at hE
      · simpa using (congrArg Prod.fst hE).symm
      · split at hE
        · simpa using (congrArg Prod.fst hE).symm
        · dsimp only at hE
          split at hE
          · simpa using (congrArg Prod.fst hE).symm
          · split at hE <;> exact absurd (congrArg Prod.snd hE) (by simp)

lemma update_model_usage_cost (h : SessionHistory) (mv : Option Json)
    (ts : Option String) : (update_model_usage h mv ts).cost = h.cost := by
  unfold update_model_usage
  split
  · rfl
  · split <;> rfl

lemma update_model_usage_tokens (h : SessionHistory) (mv : Option Json)
    (ts : Option String) : (update_model_usage h mv ts).tokens = h.tokens := by
  unfold update_model_usage
  split
  · rfl
  · split <;> rfl

lemma cm_le_refl (a : CostMetrics) : a.le a :=
  ⟨le_refl _, le_refl _, le_refl _, le_refl _, le_refl _⟩

lemma cm_le_trans {a b c : CostMetrics} (h1 : a.le b) (h2 : b.le c) : a.le c :=
  ⟨h1.1.trans h2.1, h1.2.1.trans h2.2.1, h1.2.2.1.trans h2.2.2.1,
   h1.2.2.2.1.trans h2.2.2.2.1, h1.2.2.2.2.trans h2.2.2.2.2⟩

lemma apply_total_inv (h : CostHistory) (m : CostMetrics) :
    (h.apply m).total = (h.apply m).current.add (h.apply m).accumulated := rfl

lemma apply_total_mono (h : CostHistory) (m : CostMetrics)
    (hinv : h.total = h.current.add h.accumulated)
    (hm : 0 ≤ m.total_cost_usd) : h.total.le (h.apply m).total := by
  rw [hinv]
  refine ⟨?_, ?_, ?_, ?_, ?_⟩ <;>
    simp only [CostHistory.apply, CostMetrics.add, CostMetrics.le]
  · split_ifs with hc
    · linarith
    · rw [not_and_or, not_lt, not_lt] at hc
      rcases hc with hc | hc <;> linarith
  · split_ifs with hc <;> omega
  · split_ifs with hc <;> omega
  · split_ifs with hc <;> omega
  · split_ifs with hc <;> omega

lemma applyList_cons (h : CostHistory) (m : CostMetrics) (ms : List CostMetrics) :
    applyList h (m :: ms) = applyList (h.apply m) ms := rfl

lemma applyList_append (h : CostHistory) (l1 l2 : List CostMetrics) :
    applyList h (l1 ++ l2) = applyList (applyList h l1) l2 :=
  List.foldl_append _ _ _ _

lemma applyList_inv (ms : List CostMetrics) :
    ∀ h : CostHistory, h.total = h.current.add h.accumulated →
      (applyList h ms).total = (applyList h ms).current.add (applyList h ms).accumulated := by
  induction ms with
  | nil => intro h hinv; exact hinv
  | cons m ms ih => intro h _; exact ih (h.apply m) rfl

lemma applyList_total_mono (ms : List CostMetrics) :
    ∀ h : CostHistory, h.total = h.current.add h.accumulated →
      (∀ m ∈ ms, 0 ≤ m.total_cost_usd) → h.total.le (applyList h ms).total := by
  induction ms with
  | nil => intro h _ _; exact cm_le_refl _
  | cons m ms ih =>
    intro h hinv hnn
    refine cm_le_trans (apply_total_mono h m hinv (hnn m (by simp))) ?_
    exact ih (h.apply m) rfl (fun x hx => hnn x (by simp [hx]))

/-! ## Claim theorems -/

/-- Claim C1: for every previous `CostHistory` and incoming
`CostMetrics`, `CostHistory::apply` folds each of the five scalar fields
of the previous `current` into `accumulated` exactly when the previous
`current` value of that field is strictly positive and the incoming
value of that field is strictly below it; afterwards `current` equals
the incoming metrics in every field and `total` is the field-wise sum of
`current` and `accumulated`. -/
theorem cost_apply_fold_exact (h : CostHistory) (m : CostMetrics) :
    (h.apply m).current = m ∧
    (h.apply m).accumulated.total_cost_usd =
      (if 0 < h.current.total_cost_usd ∧ m.total_cost_usd < h.current.total_cost_usd
       then h.accumulated.total_cost_usd + h.current.total_cost_usd
       else h.accumulated.total_cost_usd) ∧
    (h.apply m).accumulated.total_duration_ms =
      (if 0 < h.current.total_duration_ms ∧ m.total_duration_ms < h.current.total_duration_ms
       then h.accumulated.total_duration_ms + h.current.total_duration_ms
       else h.accumulated.total_duration_ms) ∧
    (h.apply m).accumulated.total_api_duration_ms =
      (if 0 < h.current.total_api_duration_ms ∧
          m.total_api_duration_ms < h.current.total_api_duration_ms
       then h.accumulated.total_api_duration_ms + h.current.total_api_duration_ms
       else h.accumulated.total_api_duration_ms) ∧
    (h.apply m).accumulated.total_lines_added =
      (if 0 < h.current.total_lines_added ∧ m.total_lines_added < h.current.total_lines_added
       then h.accumulated.total_lines_added + h.current.total_lines_added
       else h.accumulated.total_lines_added) ∧
    (h.apply m).accumulated.total_lines_removed =
      (if 0 < h.current.total_lines_removed ∧
          m.total_lines_removed < h.current.total_lines_removed
       then h.accumulated.total_lines_removed + h.current.total_lines_removed
       else h.accumulated.total_lines_removed) ∧
    (h.apply m).total = (h.apply m).current.add (h.apply m).accumulated :=
  ⟨rfl, rfl, rfl, rfl, rfl, rfl, rfl⟩

/-- Claim C2: a parsed assistant entry carrying a usage block replaces
the working token snapshot (independently of its previous value) with
one whose `context_used` is the sum `input + output +
cache_creation_input + cache_read_input` of that single record, and a
compaction-summary entry replaces the working snapshot with the all-zero
baseline retaining only the summary's timestamp.  (A record flagged
`isCompactSummary` is dispatched as a summary before the assistant check,
per manager.rs:337-344.) -/
theorem token_snapshot_replacement (prev : Option TokenHistory) (v : Json) :
    (∀ e : TokenHistory, is_compact_summary v = false →
      token_entry_from_message v = some e →
      stepTokens prev v = some e ∧
      e.context_used = e.input + e.output + e.cache_creation_input + e.cache_read_input) ∧
    (is_compact_summary v = true →
      stepTokens prev v =
        some { TokenHistory.init with
                 last_timestamp := (v.get "timestamp").bind Json.asStr }) := by
  constructor
  · intro e hns he
    refine ⟨?_, ?_⟩
    · unfold stepTokens
      rw [hns, he]
      simp
    · unfold token_entry_from_message at he
      split at he
      · split at he
        · exact absurd he (by simp)
        · split at he
          · exact absurd he (by simp)
          · cases he
            rfl
      · exact absurd he (by simp)
  · intro hs
    unfold stepTokens
    rw [hs]
    simp [token_entry_from_summary]

/-- Claim C2 witness: the spec's example record (10/5/100/20) yields
`context_used = 135` replacing any previous snapshot, and the summary
record resets to the zero baseline with its own timestamp. -/
theorem token_snapshot_replacement_witness :
    is_compact_summary vAssistant = false ∧
    token_entry_from_message vAssistant = some eAssistant ∧
    (stepTokens none vAssistant = some eAssistant ∧
      eAssistant.context_used = eAssistant.input + eAssistant.output +
        eAssistant.cache_creation_input + eAssistant.cache_read_input) ∧
    is_compact_summary vSummary = true ∧
    stepTokens (some eAssistant) vSummary =
      some { TokenHistory.init with last_timestamp := some "ts9" } :=
  ⟨rfl, rfl, (token_snapshot_replacement none vAssistant).1 eAssistant rfl rfl, rfl,
   (token_snapshot_replacement (some eAssistant) vSummary).2 rfl⟩

/-- Claim C5: over any sequence of `CostHistory::apply` calls whose
incoming metrics have a non-negative USD field (the integer fields are
non-negative by type), every field of `total` is monotonically
non-decreasing: the `total` after any prefix of the sequence is
field-wise at most the `total` after the whole sequence, provided the
starting history satisfies the `total = current + accumulated` invariant
(which `apply` itself establishes and the default initial history
satisfies). -/
theorem cost_total_monotone_across_sequence (h : CostHistory)
    (l1 l2 : List CostMetrics)
    (hinv : h.total = h.current.add h.accumulated)
    (hnn : ∀ m ∈ l1 ++ l2, 0 ≤ m.total_cost_usd) :
    (applyList h l1).total.le (applyList h (l1 ++ l2)).total := by
  rw [applyList_append]
  refine applyList_total_mono l2 (applyList h l1) (applyList_inv l1 h hinv) ?_
  intro m hm
  exact hnn m (List.mem_append_right _ hm)

/-- Claim C5 witness: applying USD 1 then USD 1/2 from the default
history keeps every field of `total` non-decreasing at the prefix
boundary. -/
theorem cost_total_monotone_witness :
    (CostHistory.init.total = CostHistory.init.current.add CostHistory.init.accumulated) ∧
    (∀ m ∈ [(⟨1, 0, 0, 0, 0⟩ : CostMetrics)] ++ [(⟨1/2, 0, 0, 0, 0⟩ : CostMetrics)],
      0 ≤ m.total_cost_usd) ∧
    (applyList CostHistory.init [⟨1, 0, 0, 0, 0⟩]).total.le
      (applyList CostHistory.init
        ([(⟨1, 0, 0, 0, 0⟩ : CostMetrics)] ++ [(⟨1/2, 0, 0, 0, 0⟩ : CostMetrics)])).total :=
  ⟨by simp [CostHistory.init, CostMetrics.zero, CostMetrics.add],
   by
    intro m hm
    simp only [List.cons_append, List.nil_append, List.mem_cons,
      List.not_mem_nil, or_false] at hm
    rcases hm with rfl | rfl <;> norm_num,
   cost_total_monotone_across_sequence CostHistory.init _ _
     (by simp [CostHistory.init, CostMetrics.zero, CostMetrics.add])
     (by
      intro m hm
      simp only [List.cons_append, List.nil_append, List.mem_cons,
        List.not_mem_nil, or_false] at hm
      rcases hm with rfl | rfl <;> norm_num)⟩

/-- Claim C9: `get_snapshot` returns "absent" (`Ok(None)`), not an
error, both for a session id whose snapshot file was never persisted and
for a stored snapshot file containing malformed JSON (the parse failure
is logged and swallowed in the source; logging is outside this model). -/
theorem get_absent_and_corrupt_are_none :
    get_snapshot .absent = .ok none ∧ get_snapshot .malformed = .ok none :=
  ⟨rfl, rfl⟩

/-- Claim C10: whenever the transcript token-update step returns an
error (metadata, open, seek, or mid-read line failure), the snapshot it
was given is returned completely unchanged — no transcript-state field
and no token-history field is modified. -/
theorem token_update_atomic_on_error (snap : SessionSnapshot) (path : String)
    (fs : TranscriptFS)
    (h : (read_tokens_from_transcriptF snap path fs).2 = true) :
    (read_tokens_from_transcriptF snap path fs).1 = snap :=
  read_tokens_err_unchanged snap path fs h

/-- Claim C10 witness: a failing `fs::metadata` call leaves the concrete
snapshot `snapT` untouched. -/
theorem token_update_atomic_on_error_witness :
    (read_tokens_from_transcriptF snapT "t" fsMeta).2 = true ∧
    (read_tokens_from_transcriptF snapT "t" fsMeta).1 = snapT :=
  ⟨rfl, token_update_atomic_on_error snapT "t" fsMeta rfl⟩

/-- Claim C6 (as stated) is false: a line consisting of whitespace only
advances the byte offset but is skipped before the message counter, so
appending one blank line does not raise `processed_messages` by the
number of newly appended lines. -/
theorem stream_blank_line_not_counted :
    (processStream ⟨0, 0, none⟩ ([] ++ [⟨1, .blank⟩])).messages ≠
      (processStream ⟨0, 0, none⟩ ([] : List TLine)).messages + 1 := by
  decide

/-- Claim C6 (amended): the running offset advances by the bytes of
every line read, blank and unparsable lines included; the message
counter increments for every non-blank line (unparsable ones included)
and for no blank line; consequently re-running over byte-identical
content never double-counts: after the appended lines `l2`,
`processed_messages` equals the count after `l1` plus exactly the number
of newly appended non-blank lines. -/
theorem stream_line_accounting (st : StreamState) (l1 l2 : List TLine) :
    (∀ l : TLine, (stepLine st l).offset = st.offset + l.bytes) ∧
    (∀ l : TLine, (stepLine st l).messages = st.messages + lineCount l) ∧
    (processStream st (l1 ++ l2)).offset = (processStream st l1).offset + fileLen l2 ∧
    (processStream st (l1 ++ l2)).messages =
      (processStream st l1).messages + countProcessed l2 := by
  refine ⟨fun l => stepLine_offset st l, fun l => stepLine_messages st l, ?_, ?_⟩
  · rw [processStream_append, processStream_offset]
  · rw [processStream_append, processStream_messages]

lemma read_tokens_success_eq (snap : SessionSnapshot) (path : String)
    (fs : TranscriptFS) (hfe : fs.fileExists = true) (herr : noFsErr fs) :
    read_tokens_from_transcriptF snap path fs =
      (readTokensSuccess snap path fs.lines, false) := by
  simp only [noFsErr] at herr
  obtain ⟨hme, hoe, hse, hre⟩ := herr
  rcases fs with ⟨fe, me, oe, se, lines, rea⟩
  dsimp only at hfe hme hoe hse hre
  subst hfe; subst hme; subst hoe; subst hse; subst hre
  unfold read_tokens_from_transcriptF readTokensSuccess processStreamF
  simp only [Bool.not_true, Bool.false_eq_true, if_false]
  split <;> rfl

lemma read_tokens_offset_ge (snap : SessionSnapshot) (path : String)
    (fs : TranscriptFS)
    (hp : snap.transcript_state.transcript_path = some path)
    (hl : snap.transcript_state.processed_offset ≤ fileLen fs.lines) :
    snap.transcript_state.processed_offset ≤
      ((read_tokens_from_transcriptF snap path fs).1).transcript_state.processed_offset := by
  rcases fs with ⟨fe, me, oe, se, lines, rea⟩
  dsimp only at hl
  have hnr : (decide (snap.transcript_state.transcript_path ≠ some path) ||
      decide (fileLen lines < snap.transcript_state.processed_offset)) = false := by
    simp [hp]
    omega
  cases fe
  · exact le_refl _
  · cases me
    · cases oe
      · cases se
        · rcases rea with _ | n
          · rw [read_tokens_success_eq _ _ _ rfl (by simp [noFsErr])]
            dsimp only
            unfold readTokensSuccess
            rw [hnr]
            simp only [Bool.false_eq_true, if_false]
            split <;>
              (dsimp only; rw [processStream_offset]; exact Nat.le_add_right _ _)
          · unfold read_tokens_from_transcriptF processStreamF
            simp only [Bool.not_true, Bool.false_eq_true, if_false]
            rw [hnr]
            simp only [Bool.false_eq_true, if_false]
            split
            · exact le_refl _
            next x st hq =>
              split at hq
              · exact absurd hq (by simp)
              · cases hq
                split <;>
                  (dsimp only; rw [processStream_offset]; exact Nat.le_add_right _ _)
        · exact le_refl _
      · exact le_refl _
    · exact le_refl _

lemma read_tokens_reset_eq (snap : SessionSnapshot) (path : String)
    (fs : TranscriptFS) (hfe : fs.fileExists = true) (herr : noFsErr fs)
    (hres : snap.transcript_state.transcript_path ≠ some path ∨
      fileLen fs.lines < snap.transcript_state.processed_offset) :
    (read_tokens_from_transcriptF snap path fs).1 =
      (read_tokens_from_transcriptF
        { snap with transcript_state :=
            { snap.transcript_state with
                processed_offset := 0, processed_messages := 0 } }
        path fs).1 := by
  rw [read_tokens_success_eq _ _ _ hfe herr, read_tokens_success_eq _ _ _ hfe herr]
  dsimp only
  unfold readTokensSuccess
  dsimp only
  have hL : (decide (snap.transcript_state.transcript_path ≠ some path) ||
      decide (fileLen fs.lines < snap.transcript_state.processed_offset)) = true := by
    rcases hres with h | h
    · simp [h]
    · simp [h]
  rw [hL]
  by_cases hpp : snap.transcript_state.transcript_path = some path
  · have hR : (decide (snap.transcript_state.transcript_path ≠ some path) ||
        decide (fileLen fs.lines < 0)) = false := by simp [hpp]
    rw [hR]
    simp only [eq_self_iff_true, if_true, Bool.false_eq_true, if_false]
  · have hR : (decide (snap.transcript_state.transcript_path ≠ some path) ||
        decide (fileLen fs.lines < 0)) = true := by simp [hpp]
    rw [hR]
    simp only [eq_self_iff_true, if_true, Bool.false_eq_true, if_false]

/-- Claim C3: the transcript cursor's `processed_offset` never decreases
across advances on the same transcript path as long as the stored offset
does not exceed the file's current length (the transcript is append-only
in normal operation; truncation/rotation is the reset case); and
whenever the stored path differs from the current path or the stored
offset exceeds the file length, the advance behaves exactly as if the
offset and `processed_messages` had been reset to 0 before reading. -/
theorem transcript_cursor_monotone_and_reset (snap : SessionSnapshot)
    (path : String) (fs : TranscriptFS) :
    (snap.transcript_state.transcript_path = some path →
      snap.transcript_state.processed_offset ≤ fileLen fs.lines →
      snap.transcript_state.processed_offset ≤
        ((read_tokens_from_transcriptF snap path fs).1).transcript_state.processed_offset) ∧
    (fs.fileExists = true → noFsErr fs →
      (snap.transcript_state.transcript_path ≠ some path ∨
        fileLen fs.lines < snap.transcript_state.processed_offset) →
      (read_tokens_from_transcriptF snap path fs).1 =
        (read_tokens_from_transcriptF
          { snap with transcript_state :=
              { snap.transcript_state with
                  processed_offset := 0, processed_messages := 0 } }
          path fs).1) :=
  ⟨fun hp hl => read_tokens_offset_ge snap path fs hp hl,
   fun hfe herr hres => read_tokens_reset_eq snap path fs hfe herr hres⟩

/-- Claim C3 witness: advancing `snapT` (path `"t"`, offset 0) over a
one-line file does not decrease the offset, and advancing `snapU`
(stored path `"u"`) on path `"t"` equals the advance after resetting its
cursor to zero. -/
theorem transcript_cursor_monotone_and_reset_witness :
    (snapT.transcript_state.transcript_path = some "t" ∧
      snapT.transcript_state.processed_offset ≤ fileLen fsOneLine.lines ∧
      snapT.transcript_state.processed_offset ≤
        ((read_tokens_from_transcriptF snapT "t" fsOneLine).1).transcript_state.processed_offset) ∧
    (fsOneLine.fileExists = true ∧ noFsErr fsOneLine ∧
      (snapU.transcript_state.transcript_path ≠ some "t" ∨
        fileLen fsOneLine.lines < snapU.transcript_state.processed_offset) ∧
      (read_tokens_from_transcriptF snapU "t" fsOneLine).1 =
        (read_tokens_from_transcriptF
          { snapU with transcript_state :=
              { snapU.transcript_state with
                  processed_offset := 0, processed_messages := 0 } }
          "t" fsOneLine).1) := by
  refine ⟨⟨rfl, by decide, ?_⟩, rfl, by simp [noFsErr, fsOneLine], ?_, ?_⟩
  · exact (transcript_cursor_monotone_and_reset snapT "t" fsOneLine).1 rfl (by decide)
  · exact Or.inl (by decide)
  · exact (transcript_cursor_monotone_and_reset snapU "t" fsOneLine).2 rfl
      (by simp [noFsErr, fsOneLine]) (Or.inl (by decide))

/-- Claim C4: when the transcript token-update step of one
`update_snapshot_from_value` call fails with an I/O error, the failure
is confined to that step: the call still returns (and hands to
`save_snapshot`) a snapshot in which the cost fold of the same call's
cost block is applied and the model-usage update is applied, while the
transcript state is exactly the loaded one. -/
theorem token_step_failure_confined (file : SnapFile)
    (loaded : Option SessionSnapshot) (now : ℕ) (cwd : Option String)
    (tfs : TranscriptFS) (input : Json) (sid : String) (cv : Json) (tp : String)
    (hload : load_snapshot file = .ok loaded)
    (hsid : extract_session_id input = some sid)
    (hcv : extract_cost_value input = some cv)
    (htp : extract_transcript_path input = some tp)
    (hfail : (read_tokens_from_transcriptF (updStage1 loaded now cwd input sid)
        tp tfs).2 = true) :
    update_snapshot_from_value true file now cwd tfs false input
      = .ok (modelStep (updStage1 loaded now cwd input sid) input) ∧
    (modelStep (updStage1 loaded now cwd input sid) input).history.cost
      = ((loaded.getD (SessionSnapshot.new sid now)).history.cost).apply
          (CostMetrics.from_cost_value cv) ∧
    (modelStep (updStage1 loaded now cwd input sid) input).transcript_state
      = (loaded.getD (SessionSnapshot.new sid now)).transcript_state ∧
    (modelStep (updStage1 loaded now cwd input sid) input).history.model_usage
      = (update_model_usage (updStage1 loaded now cwd input sid).history
          (extract_model input)
          (orO (extract_timestamp input)
            ((updStage1 loaded now cwd input sid).history.tokens.bind
              TokenHistory.last_timestamp))).model_usage := by
  have hcost : (updStage1 loaded now cwd input sid).history.cost
      = ((loaded.getD (SessionSnapshot.new sid now)).history.cost).apply
          (CostMetrics.from_cost_value cv) := by
    unfold updStage1
    rw [hcv]
  have hts : (updStage1 loaded now cwd input sid).transcript_state
      = (loaded.getD (SessionSnapshot.new sid now)).transcript_state := by
    unfold updStage1
    rw [hcv]
  refine ⟨?_, ?_, ?_, rfl⟩
  · unfold update_snapshot_from_value
    rw [hload, hsid, htp]
    simp only [Bool.not_true, Bool.false_eq_true, if_false]
    rw [read_tokens_err_unchanged _ _ _ hfail]
  · rw [show (modelStep (updStage1 loaded now cwd input sid) input).history.cost
        = (updStage1 loaded now cwd input sid).history.cost from
      update_model_usage_cost _ _ _]
    exact hcost
  · exact hts

/-- Claim C4 witness: with a failing `fs::metadata` call for the
transcript of payload `inpFull`, the update still returns a persisted
snapshot carrying the applied cost fold and model-usage entry, with the
transcript state untouched. -/
theorem token_step_failure_confined_witness :
    load_snapshot .absent = .ok none ∧
    extract_session_id inpFull = some "sess" ∧
    extract_cost_value inpFull = some inpCost ∧
    extract_transcript_path inpFull = some "t" ∧
    (read_tokens_from_transcriptF (updStage1 none 42 (some "/w") inpFull "sess")
        "t" fsMeta).2 = true ∧
    update_snapshot_from_value true .absent 42 (some "/w") fsMeta false inpFull
      = .ok (modelStep (updStage1 none 42 (some "/w") inpFull "sess") inpFull) ∧
    (modelStep (updStage1 none 42 (some "/w") inpFull "sess") inpFull).history.cost
      = (((none : Option SessionSnapshot).getD
            (SessionSnapshot.new "sess" 42)).history.cost).apply
          (CostMetrics.from_cost_value inpCost) ∧
    (modelStep (updStage1 none 42 (some "/w") inpFull "sess") inpFull).transcript_state
      = ((none : Option SessionSnapshot).getD
          (SessionSnapshot.new "sess" 42)).transcript_state ∧
    (modelStep (updStage1 none 42 (some "/w") inpFull "sess") inpFull).history.model_usage
      = (update_model_usage (updStage1 none 42 (some "/w") inpFull "sess").history
          (extract_model inpFull)
          (orO (extract_timestamp inpFull)
            ((updStage1 none 42 (some "/w") inpFull "sess").history.tokens.bind
              TokenHistory.last_timestamp))).model_usage := by
  have h := token_step_failure_confined .absent none 42 (some "/w") fsMeta inpFull
    "sess" inpCost "t" rfl rfl rfl rfl rfl
  exact ⟨rfl, rfl, rfl, rfl, rfl, h.1, h.2.1, h.2.2.1, h.2.2.2⟩

lemma collapse_cons (b : Char) (rest : List Char) :
    ∃ t, collapseDashes (b :: rest) = b :: t := by
  induction rest generalizing b with
  | nil => exact ⟨[], rfl⟩
  | cons c r ih =>
    by_cases h : b = '-' ∧ c = '-'
    · obtain ⟨t, ht⟩ := ih c
      exact ⟨t, by rw [collapseDashes, if_pos h, ht, h.1, h.2]⟩
    · obtain ⟨t, ht⟩ := ih c
      exact ⟨c :: t, by rw [collapseDashes, if_neg h, ht]⟩

lemma collapse_no_double (l : List Char) :
    hasDoubleDash (collapseDashes l) = false := by
  induction l using collapseDashes.induct with
  | case1 => rfl
  | case2 c => rfl
  | case3 a b rest h ih => rw [collapseDashes, if_pos h]; exact ih
  | case4 a b rest h ih =>
    rw [collapseDashes, if_neg h]
    obtain ⟨t, ht⟩ := collapse_cons b rest
    rw [ht]
    rw [ht] at ih
    simp only [hasDoubleDash, ih, Bool.or_false]
    rw [not_and_or] at h
    rcases h with h | h <;> simp [h]

lemma collapse_getLast (l : List Char) :
    (collapseDashes l).getLast? = l.getLast? := by
  induction l using collapseDashes.induct with
  | case1 => rfl
  | case2 c => rfl
  | case3 a b rest h ih =>
    rw [collapseDashes, if_pos h, ih]
    rfl
  | case4 a b rest h ih =>
    rw [collapseDashes, if_neg h]
    obtain ⟨t, ht⟩ := collapse_cons b rest
    rw [ht] at ih
    rw [ht]
    simp only [List.getLast?_cons_cons]
    exact ih

lemma dropWhile_append_char (p : Char → Bool) (l1 l2 : List Char) :
    List.dropWhile p (l1 ++ l2) =
      if List.dropWhile p l1 = [] then List.dropWhile p l2
      else List.dropWhile p l1 ++ l2 := by
  induction l1 with
  | nil => simp
  | cons a t ih =>
    by_cases hpa : p a
    · simpa [List.dropWhile_cons, hpa] using ih
    · simp [List.dropWhile_cons, hpa]

lemma dropWhile_head_ne (p : Char → Bool) (l : List Char) (a : Char)
    (h : (List.dropWhile p l).head? = some a) : p a = false := by
  induction l with
  | nil => simp at h
  | cons x t ih =>
    by_cases hpx : p x
    · rw [List.dropWhile_cons, if_pos hpx] at h
      exact ih h
    · rw [List.dropWhile_cons, if_neg hpx] at h
      simp at h
      rw [← h]
      exact Bool.eq_false_iff.mpr hpx

lemma trim_eq_nil_iff (m : List Char) :
    trimTrailingDashes m = [] ↔ ∀ x ∈ m, x = '-' := by
  unfold trimTrailingDashes
  rw [List.reverse_eq_nil_iff, List.dropWhile_eq_nil_iff]
  constructor
  · intro h x hx
    simpa using h x (by simpa using hx)
  · intro h x hx
    simpa using h x (by simpa using hx)

lemma trim_getLast_ne (m : List Char) (a : Char)
    (h : (trimTrailingDashes m).getLast? = some a) : a ≠ '-' := by
  unfold trimTrailingDashes at h
  rw [List.getLast?_reverse] at h
  have := dropWhile_head_ne _ _ _ h
  simpa using this

lemma trim_eq_self (l : List Char) (x : Char)
    (hx : l.getLast? = some x) (hne : x ≠ '-') : trimTrailingDashes l = l := by
  unfold trimTrailingDashes
  have hh : l.reverse.head? = some x := by
    rw [List.head?_reverse, hx]
  rcases hrl : l.reverse with _ | ⟨y, t⟩
  · simp [hrl] at hh
  · rw [hrl] at hh
    simp only [List.head?_cons, Option.some.injEq] at hh
    subst hh
    rw [List.dropWhile_cons, if_neg (by simpa using hne)]
    rw [← hrl, List.reverse_reverse]

lemma trim_cons3_of_nondash (c : Char) (m : List Char)
    (hm : ∃ y ∈ m, y ≠ '-') :
    trimTrailingDashes (c :: '-' :: '-' :: m) =
      c :: '-' :: '-' :: trimTrailingDashes m := by
  unfold trimTrailingDashes
  have hne : List.dropWhile (fun c => c = '-') m.reverse ≠ [] := by
    rw [Ne, List.dropWhile_eq_nil_iff]
    push_neg
    obtain ⟨y, hy, hyne⟩ := hm
    exact ⟨y, by simpa using hy, by simpa using hyne⟩
  have : (c :: '-' :: '-' :: m).reverse = m.reverse ++ ['-', '-', c] := by
    simp
  rw [this, dropWhile_append_char, if_neg hne]
  simp

lemma trim_cons3_of_alldash (c : Char) (m : List Char)
    (hm : ∀ y ∈ m, y = '-') (hc : c ≠ '-') :
    trimTrailingDashes (c :: '-' :: '-' :: m) = [c] := by
  unfold trimTrailingDashes
  have hnil : List.dropWhile (fun c => c = '-') m.reverse = [] := by
    rw [List.dropWhile_eq_nil_iff]
    intro x hx
    simpa using hm x (by simpa using hx)
  have : (c :: '-' :: '-' :: m).reverse = m.reverse ++ ['-', '-', c] := by
    simp
  rw [this, dropWhile_append_char, if_pos hnil]
  rw [show List.dropWhile (fun c => c = '-') ['-', '-', c] =
        List.dropWhile (fun c => c = '-') [c] by simp [List.dropWhile_cons]]
  rw [List.dropWhile_cons, if_neg (by simpa using hc)]
  rfl

lemma hasDoubleDash_append (t l : List Char) :
    hasDoubleDash (t ++ l) = false → hasDoubleDash l = false := by
  induction t with
  | nil => exact fun h => by simpa using h
  | cons a t ih =>
    intro h
    apply ih
    cases t with
    | nil =>
      cases l with
      | nil => rfl
      | cons b r =>
        rw [List.cons_append, List.nil_append] at h
        rw [hasDoubleDash] at h
        rw [List.nil_append]
        exact (Bool.or_eq_false_iff.mp h).2
    | cons c t2 =>
      rw [List.cons_append, List.cons_append] at h
      rw [hasDoubleDash] at h
      rw [List.cons_append]
      exact (Bool.or_eq_false_iff.mp h).2

lemma hasTriple_imp_double (l : List Char)
    (h : hasTripleDash l = true) : hasDoubleDash l = true := by
  induction l using hasTripleDash.induct with
  | case1 => simp [hasTripleDash] at h
  | case2 => simp [hasTripleDash] at h
  | case3 => simp [hasTripleDash] at h
  | case4 a b c rest ih =>
    rw [hasTripleDash] at h
    rcases Bool.or_eq_true_iff.mp h with h | h
    · simp only [Bool.and_eq_true, decide_eq_true_eq] at h
      obtain ⟨⟨h1, h2⟩, h3⟩ := h
      simp [hasDoubleDash, h1, h2]
    · have hd := ih h
      rw [hasDoubleDash, hd]
      simp

lemma hasTriple_of_parts (c : Char) (nr : List Char)
    (hc : c ≠ '-') (hh : nr.head? ≠ some '-')
    (hd : hasDoubleDash nr = false) :
    hasTripleDash (c :: '-' :: '-' :: nr) = false := by
  rcases nr with _ | ⟨h1, t1⟩
  · simp [hasTripleDash, hc]
  · simp only [List.head?_cons, Ne, Option.some.injEq] at hh
    rcases t1 with _ | ⟨h2, t2⟩
    · simp [hasTripleDash, hc, hh]
    · have hht : hasTripleDash (h1 :: h2 :: t2) = false := by
        by_contra hcon
        have := hasTriple_imp_double _ (by simpa using hcon)
        rw [this] at hd
        exact absurd hd (by simp)
      simp [hasTripleDash, hc, hh, hht]

lemma driveBranch_alldash (c sep : Char) (rest : List Char)
    (hcd : c ≠ '-')
    (hall : ∀ x ∈ rest, (if x = sep then '-' else x) = '-') :
    driveBranch c sep rest = [c] := by
  unfold driveBranch
  have hall' : ∀ y ∈ rest.map (fun x => if x = sep then '-' else x), y = '-' := by
    intro y hy
    obtain ⟨x, hx, rfl⟩ := List.mem_map.mp hy
    exact hall x hx
  dsimp only
  rw [trim_cons3_of_alldash c _ hall' hcd]
  simp [collapseDashes]

lemma driveBranch_nondash (c sep : Char) (rest : List Char)
    (hcd : c ≠ '-')
    (hex : ∃ x ∈ rest, (if x = sep then '-' else x) ≠ '-') :
    ∃ t, driveBranch c sep rest = c :: '-' :: '-' :: t ∧ t ≠ [] ∧
      t.head? ≠ some '-' ∧
      hasTripleDash (c :: '-' :: '-' :: t) = false := by
  have hm : ∃ y ∈ rest.map (fun x => if x = sep then '-' else x), y ≠ '-' := by
    obtain ⟨x, hx, hxe⟩ := hex
    exact ⟨_, List.mem_map.mpr ⟨x, hx, rfl⟩, hxe⟩
  set m := rest.map (fun x => if x = sep then '-' else x) with hm_def
  set tm := trimTrailingDashes m with htm_def
  have htm_ne : tm ≠ [] := by
    rw [htm_def, Ne, trim_eq_nil_iff]
    push_neg
    exact hm
  obtain ⟨w, hw⟩ : ∃ w, tm.getLast? = some w := by
    rcases ho : tm.getLast? with _ | w
    · exact absurd (List.getLast?_eq_none_iff.mp ho) htm_ne
    · exact ⟨w, rfl⟩
  have hwd : w ≠ '-' := trim_getLast_ne m w (htm_def ▸ hw)
  set cd := collapseDashes tm with hcd_def
  have hcd_last : cd.getLast? = some w := by rw [hcd_def, collapse_getLast]; exact hw
  have hw_mem : w ∈ cd := by
    obtain ⟨hne, heq⟩ := List.mem_getLast?_eq_getLast (by rw [hcd_last]; rfl)
    rw [heq]
    exact List.getLast_mem hne
  set nr := dropLeadingDashes cd with hnr_def
  have hnr_ne : nr ≠ [] := by
    rw [hnr_def, dropLeadingDashes, Ne, List.dropWhile_eq_nil_iff]
    push_neg
    exact ⟨w, hw_mem, by simpa using hwd⟩
  have hnr_head : nr.head? ≠ some '-' := by
    intro hcon
    have := dropWhile_head_ne _ cd '-' (hnr_def ▸ hcon)
    simp at this
  have hnr_dd : hasDoubleDash nr = false := by
    have hsplit : List.takeWhile (fun c => c = '-') cd ++ nr = cd := by
      rw [hnr_def, dropLeadingDashes]
      exact List.takeWhile_append_dropWhile _ _
    have := collapse_no_double tm
    rw [← hcd_def] at this
    rw [← hsplit] at this
    exact hasDoubleDash_append _ _ this
  have hnr_last : nr.getLast? = some w := by
    conv at hcd_last => rw [← List.takeWhile_append_dropWhile (fun c => c = '-') cd]
    rw [List.getLast?_append_of_ne_nil _ (by rw [← dropLeadingDashes, ← hnr_def]; exact hnr_ne)] at hcd_last
    rw [hnr_def, dropLeadingDashes]
    exact hcd_last
  refine ⟨nr, ?_, hnr_ne, hnr_head, hasTriple_of_parts c nr hcd hnr_head hnr_dd⟩
  unfold driveBranch
  dsimp only
  rw [← hm_def, trim_cons3_of_nondash c m hm, ← htm_def]
  have hlen : 3 ≤ (c :: '-' :: '-' :: tm).length := by simp
  rw [if_pos hlen]
  have htake : (c :: '-' :: '-' :: tm).take 3 = [c, '-', '-'] := rfl
  have hdrop : (c :: '-' :: '-' :: tm).drop 3 = tm := rfl
  rw [htake, hdrop, ← hcd_def, ← hnr_def, if_neg hnr_ne]
  have : ([c, '-', '-'] ++ nr).getLast? = some w := by
    rw [List.getLast?_append_of_ne_nil _ hnr_ne]
    exact hnr_last
  rw [trim_eq_self _ w this hwd]
  rfl

lemma alpha_ne_dash {c : Char} (hc : c.isAlpha = true) : c ≠ '-' := by
  intro h
  rw [h] at hc
  exact absurd hc (by decide)

lemma alpha_ne_bs {c : Char} (hc : c.isAlpha = true) : c ≠ '\\' := by
  intro h
  rw [h] at hc
  exact absurd hc (by decide)

lemma uncStrip_of_alpha (c : Char) (l : List Char) (hc : c.isAlpha = true) :
    uncStrip (c :: l) = c :: l := by
  unfold uncStrip
  have hfind : uncMarks.find? (fun p => p.isPrefixOf (c :: l)) = none := by
    rw [List.find?_eq_none]
    intro p hp
    have hcb := alpha_ne_bs hc
    simp only [uncMarks, List.mem_cons, List.not_mem_nil, or_false] at hp
    rcases hp with rfl | rfl <;>
      simp [List.isPrefixOf, Ne.symm hcb]
  rw [hfind]

lemma driveSplit_cons (c s : Char) (rest : List Char) :
    driveSplit (c :: ':' :: s :: rest) =
      if c.isAlpha ∧ (s = '\\' ∨ s = '/') then some (c, s, rest) else none := rfl

/-- Claim C7: project-identity hashing is deterministic (a pure function
of the path string and the filesystem's canonicalization behaviour), it
collapses runs of path separators into single dashes (for non-drive
paths the output never contains two consecutive dashes), and in
particular hashing `/Users/example//project` (a path that does not
canonicalize) yields `-Users-example-project`. -/
theorem project_hash_deterministic_and_collapsing :
    (∀ (canon : String → Option String) (p : String),
      hash_project_path canon p = hash_project_path canon p) ∧
    hash_project_path canonMiss "/Users/example//project" =
      some "-Users-example-project" ∧
    (∀ (canon : String → Option String) (p : String) (out : String),
      driveSplit (uncStrip ((canon p).getD p).data) = none →
      hash_project_path canon p = some out →
      hasDoubleDash out.data = false) := by
  refine ⟨fun _ _ => rfl, by decide, ?_⟩
  intro canon p out hds hout
  unfold hash_project_path at hout
  split at hout
  · exact absurd hout (by simp)
  · rw [Option.some.injEq] at hout
    rw [← hout]
    show hasDoubleDash (hashChars ((canon p).getD p).data) = false
    unfold hashChars
    dsimp only
    rw [hds]
    exact collapse_no_double _

/-- Claim C7 witness: the concrete example path, evaluated. -/
theorem project_hash_witness :
    driveSplit (uncStrip ((canonMiss "/Users/example//project").getD
        "/Users/example//project").data) = none ∧
    hash_project_path canonMiss "/Users/example//project" =
      some "-Users-example-project" ∧
    hasDoubleDash "-Users-example-project".data = false :=
  ⟨by decide,
   project_hash_deterministic_and_collapsing.2.1,
   project_hash_deterministic_and_collapsing.2.2 canonMiss
     "/Users/example//project" "-Users-example-project" (by decide)
     project_hash_deterministic_and_collapsing.2.1⟩

/-- Claim C8 (as stated) is false: the input path `C:\` begins with a
drive letter followed by `:\`, yet its hash is the bare string `C` — the
two-dash separator is not preserved because everything after the drive
letter is trimmed away as trailing dashes. -/
theorem drive_hash_separator_cex :
    hash_project_path canonMiss "C:\\" = some "C" ∧
    hasDoubleDash "C".data = false := by
  constructor <;> decide

/-- Claim C8 (amended): for every input whose effective (canonicalized
or raw) string begins with a drive letter followed by `:\` or `:/`, the
hash never contains three consecutive dashes; it preserves the drive
letter followed by exactly one two-dash separator (output
`d :: "--" :: t` with `t` non-empty and not starting with a dash)
provided the remainder contains a character that does not map to a dash;
when the remainder consists solely of separators and dashes the output
degenerates to the bare drive letter. -/
theorem drive_hash_separator (canon : String → Option String) (p : String)
    (c sep : Char) (rest : List Char)
    (hp : ¬p = "")
    (heff : ((canon p).getD p).data = c :: ':' :: sep :: rest)
    (hc : c.isAlpha = true)
    (hsep : sep = '\\' ∨ sep = '/') :
    ∃ out : String, hash_project_path canon p = some out ∧
      hasTripleDash out.data = false ∧
      ((∃ x ∈ rest, (if x = sep then '-' else x) ≠ '-') →
        ∃ t, out.data = c :: '-' :: '-' :: t ∧ t ≠ [] ∧ t.head? ≠ some '-') ∧
      ((∀ x ∈ rest, (if x = sep then '-' else x) = '-') → out.data = [c]) := by
  have hhc : hashChars ((canon p).getD p).data = driveBranch c sep rest := by
    unfold hashChars
    rw [heff, uncStrip_of_alpha c _ hc]
    dsimp only
    rw [driveSplit_cons, if_pos ⟨hc, hsep⟩]
  refine ⟨String.mk (hashChars ((canon p).getD p).data), ?_, ?_, ?_, ?_⟩
  · unfold hash_project_path
    rw [if_neg hp]
  · show hasTripleDash (hashChars ((canon p).getD p).data) = false
    rw [hhc]
    by_cases hex : ∃ x ∈ rest, (if x = sep then '-' else x) ≠ '-'
    · obtain ⟨t, ht, _, _, htri⟩ := driveBranch_nondash c sep rest (alpha_ne_dash hc) hex
      rw [ht]
      exact htri
    · push_neg at hex
      rw [driveBranch_alldash c sep rest (alpha_ne_dash hc) hex]
      rfl
  · intro hex
    obtain ⟨t, ht, htne, hth, _⟩ := driveBranch_nondash c sep rest (alpha_ne_dash hc) hex
    exact ⟨t, by show hashChars _ = _; rw [hhc, ht], htne, hth⟩
  · intro hall
    show hashChars _ = _
    rw [hhc, driveBranch_alldash c sep rest (alpha_ne_dash hc) hall]

/-- Claim C8 witness: the drive path `E:\a` hashes to `E--a` — drive
letter, exactly one two-dash separator, no triple dash. -/
theorem drive_hash_separator_witness :
    ("E:\\a" ≠ "") ∧
    ((canonMiss "E:\\a").getD "E:\\a").data = 'E' :: ':' :: '\\' :: ['a'] ∧
    'E'.isAlpha = true ∧
    hash_project_path canonMiss "E:\\a" = some "E--a" ∧
    hasTripleDash "E--a".data = false := by
  obtain ⟨out, ho, htri, _, _⟩ :=
    drive_hash_separator canonMiss "E:\\a" 'E' '\\' ['a'] (by decide) (by decide)
      (by decide) (Or.inl rfl)
  have hcomp : hash_project_path canonMiss "E:\\a" = some "E--a" := by decide
  have hout : out = "E--a" := Option.some.inj (ho.symm.trans hcomp)
  subst hout
  exact ⟨by decide, by decide, by decide, ho, htri⟩
